import Mathlib

/-!
Verification development for a TLS-terminating proxy that hands data
forwarding off to the kernel via a shared redirect (sockmap) table.

The Go sources (`main.go`, `tls.go`) are shallowly embedded below:

* the kernel redirect map (`ebpf.Map` used as key→fd table) is modelled as
  an association list `RMap` with `mapPut` / `mapDelete` / `mapLookup`
  (its kernel side is an external collaborator; only insert/delete/lookup
  are used by the program);
* `getKey`, `be32` are translated from `main.go` (their stdlib helpers
  `net.SplitHostPort` and `strconv.Atoi` are modelled from their documented
  behaviour);
* `HandleConn` (`main.go` lines 78–191) is modelled as a function from an
  environment describing the outcomes of its external calls (handshake,
  dial, injectable map failures, setsockopt results, epoll behaviour) to a
  final shared state, a trace of observable events, and an outcome
  (`returned` for a normal goroutine return, `fatal` for `log.Fatal`,
  which terminates the whole process);
* `Conn.Read` and `clientHelloServerName` are translated from `tls.go`;
  the `bufio.Reader` is modelled by its remaining input, with `Peek`
  returning a prefix without consuming, and the throwaway
  `crypto/tls` handshake used only for its SNI callback is an external
  collaborator passed as a function parameter.
-/

/-! ## Redirect map model -/

/-- The kernel redirect map: a key → socket-descriptor table, modelled as an
association list (at most one binding per key is maintained by `mapPut`). -/
abbrev RMap := List (Nat × Nat)

/-- Lookup in the redirect map. -/
def mapLookup (m : RMap) (k : Nat) : Option Nat :=
  (m.find? (fun e => e.1 == k)).map (·.2)

/-- Delete from the redirect map (`ebpf.Map.Delete`); deleting an absent
key leaves the map unchanged (the program ignores delete errors). -/
def mapDelete (m : RMap) (k : Nat) : RMap :=
  m.filter (fun e => e.1 != k)

/-- Insert-or-replace (`ebpf.Map.Update` with `ebpf.UpdateAny`). -/
def mapPut (m : RMap) (k v : Nat) : RMap :=
  (k, v) :: mapDelete m k

/-- Number of map entries belonging to the pair with keys `k1`, `k2`. -/
def pairCount (m : RMap) (k1 k2 : Nat) : Nat :=
  (m.filter (fun e => e.1 == k1 || e.1 == k2)).length

theorem mapLookup_nil (k : Nat) : mapLookup [] k = none := rfl

theorem mapLookup_put_self (m : RMap) (k v : Nat) :
    mapLookup (mapPut m k v) k = some v := by
  simp [mapLookup, mapPut, List.find?]

theorem mapLookup_put_ne (m : RMap) (k k' v : Nat) (h : k ≠ k') :
    mapLookup (mapPut m k' v) k = mapLookup (mapDelete m k') k := by
  have hb : (k' == k) = false := beq_eq_false_iff_ne.mpr (Ne.symm h)
  simp [mapLookup, mapPut, List.find?_cons, hb]

theorem mapLookup_delete_self (m : RMap) (k : Nat) :
    mapLookup (mapDelete m k) k = none := by
  induction m with
  | nil => rfl
  | cons e m ih =>
    by_cases he : e.1 = k
    · have hb : (e.1 != k) = false := by simp [he]
      simp only [mapDelete, List.filter_cons, hb, Bool.false_eq_true, if_false]
      exact ih
    · have hb : (e.1 != k) = true := bne_iff_ne.mpr he
      have hb' : (e.1 == k) = false := beq_eq_false_iff_ne.mpr he
      have hstep : mapDelete (e :: m) k = e :: mapDelete m k := by
        simp [mapDelete, List.filter_cons, hb]
      have hstep' : mapLookup (e :: mapDelete m k) k = mapLookup (mapDelete m k) k := by
        simp [mapLookup, List.find?_cons, hb']
      rw [hstep, hstep']
      exact ih

theorem mapLookup_delete_ne (m : RMap) (k k' : Nat) (h : k ≠ k') :
    mapLookup (mapDelete m k') k = mapLookup m k := by
  induction m with
  | nil => rfl
  | cons e m ih =>
    by_cases he : e.1 = k'
    · have hb : (e.1 != k') = false := by simp [he]
      have hb' : (e.1 == k) = false := by
        refine beq_eq_false_iff_ne.mpr ?_
        rw [he]; exact Ne.symm h
      simp only [mapDelete, List.filter_cons, hb, cond_false] at *
      simpa [mapLookup, List.find?_cons, hb'] using ih
    · have hb : (e.1 != k') = true := bne_iff_ne.mpr he
      by_cases hk : e.1 = k
      · have hb' : (e.1 == k) = true := beq_iff_eq.mpr hk
        simp [mapDelete, mapLookup, List.filter_cons, List.find?_cons, hb, hb']
      · have hb' : (e.1 == k) = false := beq_eq_false_iff_ne.mpr hk
        simp only [mapDelete, List.filter_cons, hb, cond_true] at *
        simpa [mapLookup, List.find?_cons, hb'] using ih

theorem mapLookup_none_forall (m : RMap) (k : Nat) (h : mapLookup m k = none) :
    ∀ e ∈ m, e.1 ≠ k := by
  induction m with
  | nil => simp
  | cons e m ih =>
    intro x hx
    by_cases he : e.1 = k
    · have hb : (e.1 == k) = true := beq_iff_eq.mpr he
      simp [mapLookup, List.find?_cons, hb] at h
    · have hb : (e.1 == k) = false := beq_eq_false_iff_ne.mpr he
      rcases List.mem_cons.mp hx with hx | hx
      · simpa [hx] using he
      · exact ih (by simpa [mapLookup, List.find?_cons, hb] using h) x hx

theorem mapDelete_of_absent (m : RMap) (k : Nat) (h : mapLookup m k = none) :
    mapDelete m k = m := by
  have hall := mapLookup_none_forall m k h
  unfold mapDelete
  rw [List.filter_eq_self]
  intro e he
  simpa using hall e he

/-! ## Key derivation (`main.go` lines 206–238) -/

/-- Modelled from the documented behaviour of Go `strconv.Atoi` (external
stdlib): optional sign, at least one decimal digit, no other characters,
result within the 64-bit signed range; `none` models a non-nil error. -/
def atoi (s : String) : Option Int :=
  let parseDigits : List Char → Option Nat := fun cs =>
    if cs.isEmpty then none
    else
      cs.foldl
        (fun acc c =>
          match acc with
          | none => none
          | some n => if c.isDigit then some (n * 10 + (c.toNat - 48)) else none)
        (some 0)
  let (sign, digits) :=
    match s.data with
    | '+' :: rest => ((1 : Int), rest)
    | '-' :: rest => ((-1 : Int), rest)
    | cs => ((1 : Int), cs)
  match parseDigits digits with
  | none => none
  | some n =>
    let v : Int := sign * n
    if v < -(2 ^ 63) ∨ 2 ^ 63 ≤ v then none else some v

/-- Index of the last occurrence of a character. -/
def lastIdxOf (c : Char) : List Char → Option Nat
  | [] => none
  | x :: xs =>
    match lastIdxOf c xs with
    | some i => some (i + 1)
    | none => if x = c then some 0 else none

/-- Index of the first occurrence of a character. -/
def firstIdxOf (c : Char) : List Char → Option Nat
  | [] => none
  | x :: xs => if x = c then some 0 else (firstIdxOf c xs).map (· + 1)

/-- Modelled from the documented behaviour of Go `net.SplitHostPort`
(external stdlib): splits `"host:port"` or `"[host]:port"` at the last
colon; `none` models a non-nil error (missing port, too many colons,
stray brackets). -/
def splitHostPort (s : String) : Option (String × String) :=
  let l := s.data
  match lastIdxOf ':' l with
  | none => none
  | some i =>
    match l with
    | '[' :: _ =>
      match firstIdxOf ']' l with
      | none => none
      | some e =>
        if e + 1 = l.length then none
        else if e + 1 = i then
          if (l.drop 1).contains '[' || (l.drop (e + 1)).contains ']' then none
          else some (⟨(l.drop 1).take (e - 1)⟩, ⟨l.drop (i + 1)⟩)
        else none
    | _ =>
      if (l.take i).contains ':' then none
      else if l.contains '[' || l.contains ']' then none
      else some (⟨l.take i⟩, ⟨l.drop (i + 1)⟩)

/-- `be32` from `main.go`: `binary.BigEndian.PutUint32` of `uint32(n)`
followed by `binary.LittleEndian.Uint32` of the same four bytes, i.e. a
byte swap.  The argument is a Go `int`, so the `uint32` conversion wraps
modulo `2^32`. -/
def be32 (n : Int) : Nat :=
  let u := (n % 2 ^ 32).toNat
  let b0 := u / 2 ^ 24 % 2 ^ 8
  let b1 := u / 2 ^ 16 % 2 ^ 8
  let b2 := u / 2 ^ 8 % 2 ^ 8
  let b3 := u % 2 ^ 8
  b0 ||| (b1 <<< 8) ||| (b2 <<< 16) ||| (b3 <<< 24)

/-- The address strings of a `*net.TCPConn` as observed through
`LocalAddr().String()` and `RemoteAddr().String()`. -/
structure ConnAddr where
  localAddr : String
  remoteAddr : String
  deriving DecidableEq

/-- `getKey` from `main.go` lines 206–232: split both addresses, parse both
ports, return `0` on any failure; otherwise pack
`uint64(ilocal_port<<32) | uint64(be32(iremote_port))` (the Go shift is a
64-bit two's-complement shift, so the `uint64` conversion is reduction
modulo `2^64`). -/
def getKey (c : ConnAddr) : Nat :=
  match splitHostPort c.localAddr with
  | none => 0
  | some lhp =>
    match splitHostPort c.remoteAddr with
    | none => 0
    | some rhp =>
      match atoi lhp.2 with
      | none => 0
      | some il =>
        match atoi rhp.2 with
        | none => 0
        | some ir => ((il * 2 ^ 32) % 2 ^ 64).toNat ||| be32 ir

/-- Composition of the two parsing stages applied to one address, used to
state parse-failure claims. -/
def parsePort (addr : String) : Option Int :=
  match splitHostPort addr with
  | none => none
  | some hp => atoi hp.2

/-! ## Spec-side key formula

The specification describes the redirect key as "the local port shifted
into the high 32 bits OR-ed with the remote port's big-endian 4-byte
representation reinterpreted as a little-endian 32-bit integer".  These
definitions follow the spec's words and are compared with `getKey`. -/

/-- Big-endian 4-byte representation of a 32-bit value. -/
def beBytes32 (n : Nat) : List Nat :=
  [n >>> 24 % 256, n >>> 16 % 256, n >>> 8 % 256, n % 256]

/-- Reinterpret four bytes as a little-endian 32-bit integer. -/
def leU32 : List Nat → Nat
  | [a, b, c, d] => a ||| (b <<< 8) ||| (c <<< 16) ||| (d <<< 24)
  | _ => 0

/-- The redirect key as described by the spec. -/
def specKey (localPort remotePort : Nat) : Nat :=
  (localPort <<< 32) ||| leU32 (beBytes32 remotePort)

/-! ## `HandleConn` (`main.go` lines 78–191) -/

/-- Observable events of a connection-handler run. -/
inductive Event where
  /-- A non-fatal `log.Println` / `log.Printf`. -/
  | logMsg
  /-- `hashMap.Delete` of a key. -/
  | mapDel (k : Nat)
  /-- `Close()` of a descriptor. -/
  | closeFD (fd : Nat)
  deriving DecidableEq, Repr

/-- The shared mutable state a handler touches: the redirect map and the
set of descriptors that have been closed. -/
structure Sys where
  rmap : RMap
  closed : List Nat
  deriving DecidableEq, Repr

/-- How a `HandleConn` run ends: a normal goroutine return, or `log.Fatal`
(which terminates the entire process). -/
inductive Outcome where
  | returned
  | fatal
  deriving DecidableEq, Repr

/-- Outcomes of the external calls `HandleConn` makes, including an
injectable redirect-map failure (`updateFails k` means `hashMap.Update`
at key `k` returns an error). -/
structure Env where
  inconn : ConnAddr
  outconn : ConnAddr
  ifd : Nat
  ofd : Nat
  handshakeOk : Bool
  dialOk : Bool
  updateFails : Nat → Bool
  ulpOk : Bool
  ktlsTxOk : Bool
  ktlsRxOk : Bool
  sndbufOk : Bool
  rcvbufOk : Bool
  epollCtlFails : Nat
  epollWaitOtherErr : Bool
  epollWaitEintrs : Nat

/-- Lines 113–121: the two `hashMap.Update` calls.  Returns the map after
the attempt and whether `log.Fatal` was reached.  In the source a failed
`Update` goes straight to `log.Fatal`; in particular a failure of the
second insert leaves the first entry in place. -/
def installRedirect (fail : Nat → Bool) (outKey ifd inKey ofd : Nat)
    (m : RMap) : RMap × Bool :=
  if fail outKey then (m, true)
  else
    let m1 := mapPut m outKey ifd
    if fail inKey then (m1, true)
    else (mapPut m1 inKey ofd, false)

/-- Lines 187–190: after the peer-closed notification, delete both map
entries (errors ignored, so deleting an absent key is a no-op) and close
both descriptors, in that order. -/
def teardown (inKey outKey ifd ofd : Nat) (s : Sys) : Sys × List Event :=
  let m1 := mapDelete s.rmap inKey
  let m2 := mapDelete m1 outKey
  ({ rmap := m2, closed := s.closed ++ [ifd, ofd] },
   [Event.mapDel inKey, Event.mapDel outKey, Event.closeFD ifd,
    Event.closeFD ofd])

/-- `HandleConn` from `main.go` lines 78–191, as a function from the
environment and the shared state to the final shared state, the event
trace, and the outcome.  The state returned together with
`Outcome.fatal` is the shared state at the moment `log.Fatal` runs.
The background drain goroutine (lines 149–159) performs no map or close
operation and is omitted. -/
def HandleConn (env : Env) (s : Sys) : Sys × List Event × Outcome :=
  let inKey := getKey env.inconn
  let outKey := getKey env.outconn
  -- lines 93–98: TLS handshake; failure is logged and the handler returns
  if !env.handshakeOk then (s, [Event.logMsg], Outcome.returned)
  -- lines 100–108: dial the backend; failure hits log.Fatal
  else if !env.dialOk then (s, [], Outcome.fatal)
  else
    match installRedirect env.updateFails outKey env.ifd inKey env.ofd s.rmap with
    | (m', true) => ({ s with rmap := m' }, [], Outcome.fatal)
    | (m', false) =>
      let s2 : Sys := { s with rmap := m' }
      -- line 123: TCP_ULP setsockopt; failure is only logged
      let ev1 : List Event := if env.ulpOk then [] else [Event.logMsg]
      -- lines 128–136: kTLS TX/RX enable; failure hits log.Fatal
      if !env.ktlsTxOk then (s2, ev1, Outcome.fatal)
      else if !env.ktlsRxOk then (s2, ev1, Outcome.fatal)
      else
        -- lines 139–147: SNDBUF/RCVBUF setsockopt; failures are only logged
        let ev2 := ev1 ++ (if env.sndbufOk then [] else [Event.logMsg])
          ++ (if env.rcvbufOk then [] else [Event.logMsg])
        -- lines 162–171: EpollCtl, retried up to 5 times, then log.Fatal
        if 5 ≤ env.epollCtlFails then (s2, ev2, Outcome.fatal)
        else
          -- lines 173–186: EpollWait; EINTR is logged and retried,
          -- any other error hits log.Fatal
          if env.epollWaitOtherErr then (s2, ev2, Outcome.fatal)
          else
            let ev3 := ev2 ++ List.replicate env.epollWaitEintrs Event.logMsg
            -- lines 187–190: teardown after the peer-closed notification
            let td := teardown inKey outKey env.ifd env.ofd s2
            (td.1, ev3 ++ td.2, Outcome.returned)

/-- `true` exactly for `Event.mapDel` events. -/
def Event.isMapDel : Event → Bool
  | .mapDel _ => true
  | _ => false

/-- `true` exactly for `Event.closeFD` events. -/
def Event.isCloseFD : Event → Bool
  | .closeFD _ => true
  | _ => false

/-! ## Peek-replay connection wrapper (`tls.go` lines 91–115) -/

/-- `Conn` from `tls.go`: a connection with a buffer of already-peeked
bytes.  `peeked = none` models a nil Go slice; the underlying connection
is modelled by the byte stream it would deliver. -/
structure Conn where
  peeked : Option (List Nat)
  conn : List Nat
  deriving DecidableEq, Repr

/-- `len(c.Peeked)` (a nil slice has length 0). -/
def Conn.peekedLen (c : Conn) : Nat :=
  (c.peeked.getD []).length

/-- `Conn.Read` from `tls.go` lines 105–115.  `plen` is the capacity of
the caller's buffer `p`; the result is the bytes delivered and the new
connection state.  `copy(p, c.Peeked)` copies `min plen (len Peeked)`
bytes; a read on the underlying connection delivers a prefix of its
stream. -/
def Conn.Read (c : Conn) (plen : Nat) : List Nat × Conn :=
  if 0 < c.peekedLen then
    let l := c.peeked.getD []
    let n := min plen l.length
    let rest := l.drop n
    (l.take n,
     { c with peeked := if rest.length = 0 then none else some rest })
  else
    (c.conn.take plen, { c with conn := c.conn.drop plen })

/-! ## SNI extraction (`tls.go` lines 13–75) -/

/-- `clientHelloServerName` from `tls.go`.  The `bufio.Reader` is modelled
by the byte stream `input` it would deliver: `Peek n` returns the first
`n` bytes without consuming them and fails when fewer are available, in
which case everything available has been buffered, so `getPeeked`
returns all of `input`; after a successful `Peek n` the buffer holds the
`n` requested bytes, so `getPeeked` returns `input.take n`.  The
throwaway `crypto/tls` handshake used only to capture the SNI callback
is the external collaborator `sniOf`.  The result is
`some (sni, isTLS, peeked)` when the returned error is nil, `none` when
it is the error of the first failed `Peek` (line 21). -/
def clientHelloServerName (sniOf : List Nat → String) (input : List Nat) :
    Option (String × Bool × List Nat) :=
  match input with
  | [] => none
  | b :: _ =>
    if b ≠ 0x16 then
      -- not a handshake record: 0x80 suggests SSLv2, anything else is not TLS
      if b = 0x80 then some ("", true, input.take 1)
      else some ("", false, input.take 1)
    else
      match input with
      | _ :: _ :: _ :: b3 :: b4 :: _ =>
        -- recLen := int(hdr[3])<<8 | int(hdr[4]), version in hdr[1:3] ignored
        let recLen := (b3 <<< 8) ||| b4
        if input.length < 5 + recLen then
          -- Peek(recordHeaderLen+recLen) failed: report TLS, keep what we have
          some ("", true, input)
        else
          some (sniOf (input.take (5 + recLen)), true, input.take (5 + recLen))
      | _ =>
        -- Peek(recordHeaderLen) failed: logged, reported as not TLS, nil error
        some ("", false, input)

/-! ## Helper lemmas -/

theorem getKey_eq_of_parse (c : ConnAddr) (il ir : Int)
    (hL : parsePort c.localAddr = some il)
    (hR : parsePort c.remoteAddr = some ir) :
    getKey c = ((il * 2 ^ 32) % 2 ^ 64).toNat ||| be32 ir := by
  unfold parsePort at hL hR
  unfold getKey
  rcases e1 : splitHostPort c.localAddr with _ | lhp <;>
    rcases e2 : splitHostPort c.remoteAddr with _ | rhp <;>
    simp_all

theorem getKey_eq_zero (c : ConnAddr)
    (h : parsePort c.localAddr = none ∨ parsePort c.remoteAddr = none) :
    getKey c = 0 := by
  unfold parsePort at h
  unfold getKey
  rcases e1 : splitHostPort c.localAddr with _ | lhp
  · rfl
  · rcases e2 : splitHostPort c.remoteAddr with _ | rhp
    · rfl
    · rcases e3 : atoi lhp.2 with _ | il
      · simp_all
      · rcases e4 : atoi rhp.2 with _ | ir
        · simp_all
        · simp_all

theorem key_formula (il ir : Int) (hil0 : 0 ≤ il) (hil : il < 65536)
    (hir0 : 0 ≤ ir) (hir : ir < 65536) :
    ((il * 2 ^ 32) % 2 ^ 64).toNat ||| be32 ir = specKey il.toNat ir.toNat := by
  have h1 : ((il * 2 ^ 32) % 2 ^ 64).toNat = il.toNat <<< 32 := by
    rw [Nat.shiftLeft_eq]
    norm_num
    omega
  have hu : ((ir % 2 ^ 32)).toNat = ir.toNat := by
    norm_num
    omega
  have h2 : be32 ir = leU32 (beBytes32 ir.toNat) := by
    simp only [be32, leU32, beBytes32, Nat.shiftRight_eq_div_pow, hu]
    norm_num
  rw [specKey, h1, h2]

theorem lookup_delete_delete_left (m : RMap) (k1 k2 : Nat) :
    mapLookup (mapDelete (mapDelete m k1) k2) k1 = none := by
  by_cases h : k1 = k2
  · subst h; rw [mapLookup_delete_self]
  · rw [mapLookup_delete_ne _ k1 k2 h, mapLookup_delete_self]

theorem pairCount_delete_both (m : RMap) (k1 k2 : Nat) :
    pairCount (mapDelete (mapDelete m k1) k2) k1 k2 = 0 := by
  unfold pairCount mapDelete
  rw [List.length_eq_zero, List.filter_eq_nil_iff]
  intro e he
  have hk2 : (e.1 != k2) = true := (List.mem_filter.mp he).2
  have hk1 : (e.1 != k1) = true :=
    (List.mem_filter.mp (List.mem_filter.mp he).1).2
  simp only [bne_iff_ne, ne_eq] at hk1 hk2
  simp [hk1, hk2]

theorem teardown_rmap (inKey outKey ifd ofd : Nat) (s : Sys) :
    (teardown inKey outKey ifd ofd s).1.rmap =
      mapDelete (mapDelete s.rmap inKey) outKey := rfl

theorem teardown_closed (inKey outKey ifd ofd : Nat) (s : Sys) :
    (teardown inKey outKey ifd ofd s).1.closed = s.closed ++ [ifd, ofd] := rfl

theorem teardown_trace (inKey outKey ifd ofd : Nat) (s : Sys) :
    (teardown inKey outKey ifd ofd s).2 =
      [Event.mapDel inKey, Event.mapDel outKey, Event.closeFD ifd,
       Event.closeFD ofd] := rfl

/-- The baseline environment used by concrete runs: realistic loopback
addresses, every external call succeeding. -/
def okEnv : Env where
  inconn := ⟨"127.0.0.1:443", "127.0.0.1:50000"⟩
  outconn := ⟨"127.0.0.1:49000", "127.0.0.1:8080"⟩
  ifd := 7
  ofd := 9
  handshakeOk := true
  dialOk := true
  updateFails := fun _ => false
  ulpOk := true
  ktlsTxOk := true
  ktlsRxOk := true
  sndbufOk := true
  rcvbufOk := true
  epollCtlFails := 0
  epollWaitOtherErr := false
  epollWaitEintrs := 0

/-! ## Claims -/

/-- C3: For all valid port pairs (local, remote), the derived redirect key
is a deterministic, pure function of the pair, equal to the local port
shifted into the high 32 bits OR-ed with the remote port's big-endian
4-byte representation reinterpreted as a little-endian 32-bit integer (a
byte swap); identical port pairs always yield identical keys. -/
theorem C3_getKey_spec_formula (c : ConnAddr) (il ir : Int)
    (hL : parsePort c.localAddr = some il)
    (hR : parsePort c.remoteAddr = some ir)
    (hil0 : 0 ≤ il) (hil : il < 65536) (hir0 : 0 ≤ ir) (hir : ir < 65536) :
    getKey c = specKey il.toNat ir.toNat ∧
    (∀ c' : ConnAddr, parsePort c'.localAddr = some il →
      parsePort c'.remoteAddr = some ir → getKey c' = getKey c) := by
  have h1 := getKey_eq_of_parse c il ir hL hR
  have hkey := key_formula il ir hil0 hil hir0 hir
  constructor
  · rw [h1, hkey]
  · intro c' hL' hR'
    rw [getKey_eq_of_parse c' il ir hL' hR', h1]

theorem C3_witness :
    getKey ⟨"127.0.0.1:443", "127.0.0.1:50000"⟩ = specKey 443 50000 :=
  (C3_getKey_spec_formula ⟨"127.0.0.1:443", "127.0.0.1:50000"⟩ 443 50000
    (by decide) (by decide) (by decide) (by decide) (by decide) (by decide)).1

/-- C10: If either the local or remote address of a connection fails port
parsing, `getKey` silently returns the sentinel key 0 instead of reporting
an error; consequently any two connections whose addresses fail to parse
derive the identical key 0. -/
theorem C10_parse_failure_key_zero (c1 c2 : ConnAddr)
    (h1 : parsePort c1.localAddr = none ∨ parsePort c1.remoteAddr = none)
    (h2 : parsePort c2.localAddr = none ∨ parsePort c2.remoteAddr = none) :
    getKey c1 = 0 ∧ getKey c2 = 0 ∧ getKey c1 = getKey c2 := by
  have a1 := getKey_eq_zero c1 h1
  have a2 := getKey_eq_zero c2 h2
  exact ⟨a1, a2, by rw [a1, a2]⟩

theorem C10_witness :
    getKey ⟨"nocolon", "127.0.0.1:50000"⟩ = 0 ∧
    getKey ⟨"127.0.0.1:443", "127.0.0.1:bad"⟩ = 0 ∧
    getKey ⟨"nocolon", "127.0.0.1:50000"⟩ =
      getKey ⟨"127.0.0.1:443", "127.0.0.1:bad"⟩ :=
  C10_parse_failure_key_zero ⟨"nocolon", "127.0.0.1:50000"⟩
    ⟨"127.0.0.1:443", "127.0.0.1:bad"⟩ (Or.inl (by decide))
    (Or.inr (by decide))

/-- C2: For every connection pair whose handshake and dial both succeeded
(`installRedirect` is the step of `HandleConn` executed exactly then),
after installation the redirect map holds exactly two entries for that
pair: the key derived from the backend connection's port tuple maps to
the client descriptor `ifd`, and the key derived from the client
connection's port tuple maps to the backend descriptor `ofd` — each key
resolves to the other side's descriptor, never to its own. -/
theorem C2_install_cross_wiring (inc outc : ConnAddr) (fail : Nat → Bool)
    (ifd ofd : Nat) (m : RMap)
    (hk : getKey inc ≠ getKey outc)
    (hf1 : fail (getKey outc) = false) (hf2 : fail (getKey inc) = false)
    (hm1 : mapLookup m (getKey inc) = none)
    (hm2 : mapLookup m (getKey outc) = none)
    (hfd : ifd ≠ ofd) :
    (installRedirect fail (getKey outc) ifd (getKey inc) ofd m).2 = false ∧
    mapLookup (installRedirect fail (getKey outc) ifd (getKey inc) ofd m).1
      (getKey outc) = some ifd ∧
    mapLookup (installRedirect fail (getKey outc) ifd (getKey inc) ofd m).1
      (getKey inc) = some ofd ∧
    pairCount (installRedirect fail (getKey outc) ifd (getKey inc) ofd m).1
      (getKey inc) (getKey outc) = 2 ∧
    mapLookup (installRedirect fail (getKey outc) ifd (getKey inc) ofd m).1
      (getKey outc) ≠ some ofd ∧
    mapLookup (installRedirect fail (getKey outc) ifd (getKey inc) ofd m).1
      (getKey inc) ≠ some ifd := by
  have hne' : getKey outc ≠ getKey inc := Ne.symm hk
  have hro : installRedirect fail (getKey outc) ifd (getKey inc) ofd m
      = ((getKey inc, ofd) :: (getKey outc, ifd) :: m, false) := by
    have hbne : ((getKey outc : Nat) != getKey inc) = true := bne_iff_ne.mpr hne'
    unfold installRedirect
    rw [hf1, hf2]
    simp only [Bool.false_eq_true, if_false]
    unfold mapPut
    rw [mapDelete_of_absent m (getKey outc) hm2]
    rw [show mapDelete ((getKey outc, ifd) :: m) (getKey inc)
          = (getKey outc, ifd) :: mapDelete m (getKey inc) from by
        simp [mapDelete, List.filter_cons, hbne]]
    rw [mapDelete_of_absent m (getKey inc) hm1]
  rw [hro]
  have hb : ((getKey inc : Nat) == getKey outc) = false :=
    beq_eq_false_iff_ne.mpr hk
  have hfind1 : mapLookup ((getKey inc, ofd) :: (getKey outc, ifd) :: m)
      (getKey outc) = some ifd := by
    simp [mapLookup, List.find?_cons, hb]
  have hfind2 : mapLookup ((getKey inc, ofd) :: (getKey outc, ifd) :: m)
      (getKey inc) = some ofd := by
    simp [mapLookup, List.find?_cons]
  have hcount : pairCount ((getKey inc, ofd) :: (getKey outc, ifd) :: m)
      (getKey inc) (getKey outc) = 2 := by
    unfold pairCount
    have hmf : m.filter
        (fun e => e.1 == getKey inc || e.1 == getKey outc) = [] := by
      rw [List.filter_eq_nil_iff]
      intro e he
      have h1 := mapLookup_none_forall m _ hm1 e he
      have h2 := mapLookup_none_forall m _ hm2 e he
      simp [h1, h2]
    simp [List.filter_cons, hmf]
  refine ⟨rfl, hfind1, hfind2, hcount, ?_, ?_⟩
  · rw [hfind1]
    intro h
    exact hfd (Option.some.inj h)
  · rw [hfind2]
    intro h
    exact hfd (Option.some.inj h).symm

theorem C2_witness :
    (installRedirect (fun _ => false)
      (getKey ⟨"127.0.0.1:49000", "127.0.0.1:8080"⟩) 7
      (getKey ⟨"127.0.0.1:443", "127.0.0.1:50000"⟩) 9 []).2 = false ∧
    mapLookup (installRedirect (fun _ => false)
      (getKey ⟨"127.0.0.1:49000", "127.0.0.1:8080"⟩) 7
      (getKey ⟨"127.0.0.1:443", "127.0.0.1:50000"⟩) 9 []).1
      (getKey ⟨"127.0.0.1:49000", "127.0.0.1:8080"⟩) = some 7 ∧
    pairCount (installRedirect (fun _ => false)
      (getKey ⟨"127.0.0.1:49000", "127.0.0.1:8080"⟩) 7
      (getKey ⟨"127.0.0.1:443", "127.0.0.1:50000"⟩) 9 []).1
      (getKey ⟨"127.0.0.1:443", "127.0.0.1:50000"⟩)
      (getKey ⟨"127.0.0.1:49000", "127.0.0.1:8080"⟩) = 2 :=
  have h := C2_install_cross_wiring ⟨"127.0.0.1:443", "127.0.0.1:50000"⟩
    ⟨"127.0.0.1:49000", "127.0.0.1:8080"⟩ (fun _ => false) 7 9 []
    (by decide) rfl rfl rfl rfl (by decide)
  ⟨h.1, h.2.1, h.2.2.2.1⟩

/-- C7: When the peer-closed notification fires for a pair's client
descriptor, the monitor (`teardown`, the code after `EpollWait` returns)
removes both of the pair's map entries — a delete of an absent key is a
no-op, not an error, and the theorem holds for any prior state `s` — and
closes both descriptors, and both map removals happen before either
descriptor close in the event trace; afterwards zero map entries remain
for that pair. -/
theorem C7_teardown_removes_then_closes (inKey outKey ifd ofd : Nat)
    (s : Sys) :
    mapLookup (teardown inKey outKey ifd ofd s).1.rmap inKey = none ∧
    mapLookup (teardown inKey outKey ifd ofd s).1.rmap outKey = none ∧
    pairCount (teardown inKey outKey ifd ofd s).1.rmap inKey outKey = 0 ∧
    ifd ∈ (teardown inKey outKey ifd ofd s).1.closed ∧
    ofd ∈ (teardown inKey outKey ifd ofd s).1.closed ∧
    (∀ i j ei ej, (teardown inKey outKey ifd ofd s).2.get? i = some ei →
      (teardown inKey outKey ifd ofd s).2.get? j = some ej →
      ei.isMapDel = true → ej.isCloseFD = true → i < j) := by
  refine ⟨?_, ?_, ?_, ?_, ?_, ?_⟩
  · rw [teardown_rmap]
    exact lookup_delete_delete_left s.rmap inKey outKey
  · rw [teardown_rmap]
    exact mapLookup_delete_self _ outKey
  · rw [teardown_rmap]
    exact pairCount_delete_both s.rmap inKey outKey
  · rw [teardown_closed]
    simp
  · rw [teardown_closed]
    simp
  · intro i j ei ej hi hj hdel hclose
    rw [teardown_trace] at hi hj
    have hi4 : i < 4 := by
      by_contra hge
      push_neg at hge
      rw [List.get?_eq_none.mpr (by simpa using hge)] at hi
      cases hi
    have hj4 : j < 4 := by
      by_contra hge
      push_neg at hge
      rw [List.get?_eq_none.mpr (by simpa using hge)] at hj
      cases hj
    interval_cases i <;> interval_cases j <;>
      simp only [List.get?_cons_zero, List.get?_cons_succ,
        Option.some.injEq] at hi hj <;>
      subst hi <;> subst hj <;>
      first
        | omega
        | simp [Event.isMapDel, Event.isCloseFD] at hdel hclose

theorem C7_witness :
    mapLookup (teardown 1 2 7 9 ⟨[(1, 9), (2, 7)], []⟩).1.rmap 1 = none ∧
    (7 : Nat) ∈ (teardown 1 2 7 9 ⟨[(1, 9), (2, 7)], []⟩).1.closed ∧
    0 < 2 :=
  have h := C7_teardown_removes_then_closes 1 2 7 9 ⟨[(1, 9), (2, 7)], []⟩
  ⟨h.1, h.2.2.2.1,
   h.2.2.2.2.2 0 2 (Event.mapDel 1) (Event.closeFD 7) rfl rfl rfl rfl⟩

/-- C1 counterexample: with an injected failure of the second insertion
(the key derived from the client connection), the run ends in
`log.Fatal` with the first insertion still present — exactly one of the
pair's two entries — refuting the claim that the first insertion is
rolled back before the installer returns an error. -/
theorem C1_counterexample :
    (HandleConn { okEnv with
        updateFails := fun k => k == getKey okEnv.inconn } ⟨[], []⟩).2.2
      = Outcome.fatal ∧
    mapLookup (HandleConn { okEnv with
        updateFails := fun k => k == getKey okEnv.inconn } ⟨[], []⟩).1.rmap
      (getKey okEnv.outconn) = some okEnv.ifd ∧
    pairCount (HandleConn { okEnv with
        updateFails := fun k => k == getKey okEnv.inconn } ⟨[], []⟩).1.rmap
      (getKey okEnv.inconn) (getKey okEnv.outconn) = 1 :=
  ⟨rfl, rfl, rfl⟩

/-- C1 (amended): if the second of the two map insertions fails after the
first succeeded, `HandleConn` calls `log.Fatal` — terminating the whole
process — without removing the first insertion; the map is left holding
the first of the pair's two entries. -/
theorem C1_second_insert_failure_fatal_without_rollback (env : Env) (s : Sys)
    (hh : env.handshakeOk = true) (hd : env.dialOk = true)
    (h1 : env.updateFails (getKey env.outconn) = false)
    (h2 : env.updateFails (getKey env.inconn) = true) :
    (HandleConn env s).2.2 = Outcome.fatal ∧
    mapLookup (HandleConn env s).1.rmap (getKey env.outconn)
      = some env.ifd := by
  have hro : installRedirect env.updateFails (getKey env.outconn) env.ifd
      (getKey env.inconn) env.ofd s.rmap
      = (mapPut s.rmap (getKey env.outconn) env.ifd, true) := by
    unfold installRedirect
    rw [h1, h2]
    simp
  simp only [HandleConn, hh, hd]
  rw [hro]
  exact ⟨rfl, mapLookup_put_self s.rmap (getKey env.outconn) env.ifd⟩

theorem C1_witness :
    (HandleConn { okEnv with
        updateFails := fun k => k == getKey okEnv.inconn } ⟨[(3, 4)], []⟩).2.2
      = Outcome.fatal :=
  (C1_second_insert_failure_fatal_without_rollback
    { okEnv with updateFails := fun k => k == getKey okEnv.inconn }
    ⟨[(3, 4)], []⟩ rfl rfl (by decide) (by decide)).1

/-- C4 counterexample: with the backend dial failing after a successful
handshake, the run ends in `log.Fatal` (fatal to the whole process, not
just this pair) and the client descriptor is never closed — refuting the
claim that the failure is confined to the pair and that the client
descriptor is closed.  (The other half of the claim does hold: zero map
entries are created.) -/
theorem C4_counterexample :
    (HandleConn { okEnv with dialOk := false } ⟨[], []⟩).2.2
      = Outcome.fatal ∧
    (HandleConn { okEnv with dialOk := false } ⟨[], []⟩).1.closed = [] ∧
    (HandleConn { okEnv with dialOk := false } ⟨[], []⟩).1.rmap = [] :=
  ⟨rfl, rfl, rfl⟩

/-- C4 (amended): if the backend dial fails after a successful client
handshake, `HandleConn` calls `log.Fatal`, terminating the whole
process; the already-established client descriptor is not closed by the
handler, and zero redirect-map entries are created for the pair (the
shared state is returned unchanged). -/
theorem C4_dial_failure_fatal_client_not_closed (env : Env) (s : Sys)
    (hh : env.handshakeOk = true) (hd : env.dialOk = false) :
    HandleConn env s = (s, [], Outcome.fatal) := by
  simp [HandleConn, hh, hd]

theorem C4_witness :
    HandleConn { okEnv with dialOk := false } ⟨[(3, 4)], [5]⟩
      = (⟨[(3, 4)], [5]⟩, [], Outcome.fatal) :=
  C4_dial_failure_fatal_client_not_closed
    { okEnv with dialOk := false } ⟨[(3, 4)], [5]⟩ rfl rfl

/-- C5 counterexample: with kernel-TLS enablement failing for a pair, the
run ends in `log.Fatal` (the process does crash) and the pair's two
redirect-map entries are left in place (no rollback) — refuting both
parts of the claim. -/
theorem C5_counterexample :
    (HandleConn { okEnv with ktlsTxOk := false } ⟨[], []⟩).2.2
      = Outcome.fatal ∧
    pairCount (HandleConn { okEnv with ktlsTxOk := false } ⟨[], []⟩).1.rmap
      (getKey okEnv.inconn) (getKey okEnv.outconn) = 2 :=
  ⟨rfl, rfl⟩

/-- C5 (amended): if enabling kernel TLS (step 3, in either the TX or the
RX direction) fails for a connection pair, `HandleConn` calls
`log.Fatal` — crashing the whole process — with the pair's two
redirect-map entries left in place (no rollback); if tuning socket
buffers (step 4, either SNDBUF or RCVBUF) fails, the failure is only
logged and the pair proceeds normally to a normal return. -/
theorem C5_ktls_fatal_no_rollback_buffer_tuning_logged (env : Env) (s : Sys)
    (hh : env.handshakeOk = true) (hd : env.dialOk = true)
    (h1 : env.updateFails (getKey env.outconn) = false)
    (h2 : env.updateFails (getKey env.inconn) = false)
    (hk : getKey env.inconn ≠ getKey env.outconn) :
    (env.ktlsTxOk = false ∨ env.ktlsRxOk = false →
      (HandleConn env s).2.2 = Outcome.fatal ∧
      mapLookup (HandleConn env s).1.rmap (getKey env.outconn)
        = some env.ifd ∧
      mapLookup (HandleConn env s).1.rmap (getKey env.inconn)
        = some env.ofd) ∧
    (env.ktlsTxOk = true → env.ktlsRxOk = true →
      env.sndbufOk = false ∨ env.rcvbufOk = false →
      env.epollCtlFails < 5 → env.epollWaitOtherErr = false →
      (HandleConn env s).2.2 = Outcome.returned ∧
      Event.logMsg ∈ (HandleConn env s).2.1) := by
  have hne : getKey env.outconn ≠ getKey env.inconn := Ne.symm hk
  have hro : installRedirect env.updateFails (getKey env.outconn) env.ifd
      (getKey env.inconn) env.ofd s.rmap
      = (mapPut (mapPut s.rmap (getKey env.outconn) env.ifd)
          (getKey env.inconn) env.ofd, false) := by
    unfold installRedirect
    rw [h1, h2]
    simp
  have hlook1 : mapLookup (mapPut (mapPut s.rmap (getKey env.outconn)
      env.ifd) (getKey env.inconn) env.ofd) (getKey env.outconn)
      = some env.ifd := by
    rw [mapLookup_put_ne _ _ _ _ hne, mapLookup_delete_ne _ _ _ hne,
      mapLookup_put_self]
  constructor
  · intro hOr
    simp only [HandleConn, hh, hd]
    rw [hro]
    cases htx : env.ktlsTxOk with
    | false =>
      simp only [htx]
      exact ⟨rfl, hlook1, mapLookup_put_self _ _ _⟩
    | true =>
      have hrx : env.ktlsRxOk = false := by
        rcases hOr with h | h
        · rw [htx] at h
          cases h
        · exact h
      simp only [htx, hrx]
      exact ⟨rfl, hlook1, mapLookup_put_self _ _ _⟩
  · intro htx hrx hOr hctl hwait
    have hctl' : ¬ 5 ≤ env.epollCtlFails := by omega
    simp only [HandleConn, hh, hd]
    rw [hro]
    rcases hOr with hsnd | hrcv
    · simp [htx, hrx, hsnd, hctl', hwait]
    · simp [htx, hrx, hrcv, hctl', hwait]

theorem C5_witness :
    ((HandleConn { okEnv with ktlsRxOk := false } ⟨[], []⟩).2.2
      = Outcome.fatal ∧
    mapLookup (HandleConn { okEnv with ktlsRxOk := false } ⟨[], []⟩).1.rmap
      (getKey okEnv.outconn) = some okEnv.ifd) ∧
    (HandleConn { okEnv with rcvbufOk := false } ⟨[], []⟩).2.2
      = Outcome.returned :=
  have ha := (C5_ktls_fatal_no_rollback_buffer_tuning_logged
    { okEnv with ktlsRxOk := false } ⟨[], []⟩ rfl rfl rfl rfl (by decide)).1
    (Or.inr rfl)
  have hb := (C5_ktls_fatal_no_rollback_buffer_tuning_logged
    { okEnv with rcvbufOk := false } ⟨[], []⟩ rfl rfl rfl rfl (by decide)).2
    rfl rfl (Or.inr rfl) (by decide) rfl
  ⟨⟨ha.1, ha.2.1⟩, hb.1⟩

/-- C6 counterexample: on handshake failure the handler returns with the
shared state untouched — in particular the raw client connection is not
closed (`closed` stays empty), refuting the part of the claim that says
the raw client connection is closed. -/
theorem C6_counterexample :
    (HandleConn { okEnv with handshakeOk := false } ⟨[], []⟩).1.closed
      = [] ∧
    (HandleConn { okEnv with handshakeOk := false } ⟨[], []⟩).1.rmap = [] ∧
    (HandleConn { okEnv with handshakeOk := false } ⟨[], []⟩).2.2
      = Outcome.returned :=
  ⟨rfl, rfl, rfl⟩

/-- C6 (amended): on any TLS handshake failure for an accepted connection,
the attempt is abandoned — the error is logged and `HandleConn` returns
normally (no `log.Fatal`, so no other connection is affected) — but the
raw client connection is not closed; the redirect map is untouched (no
entries for this connection exist). -/
theorem C6_handshake_failure_returns_without_close (env : Env) (s : Sys)
    (hh : env.handshakeOk = false) :
    HandleConn env s = (s, [Event.logMsg], Outcome.returned) := by
  simp [HandleConn, hh]

theorem C6_witness :
    HandleConn { okEnv with handshakeOk := false } ⟨[(3, 4)], [5]⟩
      = (⟨[(3, 4)], [5]⟩, [Event.logMsg], Outcome.returned) :=
  C6_handshake_failure_returns_without_close
    { okEnv with handshakeOk := false } ⟨[(3, 4)], [5]⟩ rfl

/-- C8: SNI extraction classifies by the first peeked byte without
consuming input: if that byte is 0x80 it reports SSLv2-like (no server
name, treated as TLS, nil error), if it is any other non-handshake byte
(e.g. 0x00) it reports "not TLS" with no error, and in every case where
a result is returned the reported peeked bytes are a prefix of the
input, available for replay byte-for-byte. -/
theorem C8_byte_classification_preserves_input (sniOf : List Nat → String)
    (input : List Nat) (hne : input ≠ []) :
    (input.head? = some 0x80 →
      clientHelloServerName sniOf input = some ("", true, input.take 1)) ∧
    (∀ b, input.head? = some b → b ≠ 0x16 → b ≠ 0x80 →
      clientHelloServerName sniOf input = some ("", false, input.take 1)) ∧
    (∀ r, clientHelloServerName sniOf input = some r →
      ∃ t, input = r.2.2 ++ t) := by
  cases input with
  | nil => exact absurd rfl hne
  | cons b rest =>
    refine ⟨?_, ?_, ?_⟩
    · intro h
      have hb : b = 0x80 := by
        simp only [List.head?_cons, Option.some.injEq] at h
        exact h
      subst hb
      rfl
    · intro b' hb' h16 h80
      have hb : b = b' := by
        simp only [List.head?_cons, Option.some.injEq] at hb'
        exact hb'
      subst hb
      simp only [clientHelloServerName]
      rw [if_pos h16, if_neg h80]
    · intro r hr
      by_cases h16 : b = 0x16
      · subst h16
        rcases rest with _ | ⟨a1, r1⟩
        · rw [show clientHelloServerName sniOf [0x16]
              = some ("", false, [0x16]) from rfl] at hr
          cases hr
          exact ⟨[], rfl⟩
        · rcases r1 with _ | ⟨a2, r2⟩
          · rw [show clientHelloServerName sniOf [0x16, a1]
                = some ("", false, [0x16, a1]) from rfl] at hr
            cases hr
            exact ⟨[], rfl⟩
          · rcases r2 with _ | ⟨a3, r3⟩
            · rw [show clientHelloServerName sniOf [0x16, a1, a2]
                  = some ("", false, [0x16, a1, a2]) from rfl] at hr
              cases hr
              exact ⟨[], rfl⟩
            · rcases r3 with _ | ⟨a4, r4⟩
              · rw [show clientHelloServerName sniOf [0x16, a1, a2, a3]
                    = some ("", false, [0x16, a1, a2, a3]) from rfl] at hr
                cases hr
                exact ⟨[], rfl⟩
              · have hstep : clientHelloServerName sniOf
                    (0x16 :: a1 :: a2 :: a3 :: a4 :: r4)
                    = (if (0x16 :: a1 :: a2 :: a3 :: a4 :: r4 : List Nat).length
                          < 5 + ((a3 <<< 8) ||| a4)
                       then some ("", true, 0x16 :: a1 :: a2 :: a3 :: a4 :: r4)
                       else some (sniOf ((0x16 :: a1 :: a2 :: a3 :: a4 :: r4).take
                           (5 + ((a3 <<< 8) ||| a4))), true,
                         (0x16 :: a1 :: a2 :: a3 :: a4 :: r4).take
                           (5 + ((a3 <<< 8) ||| a4)))) := rfl
                rw [hstep] at hr
                split at hr
                · cases hr
                  exact ⟨[], (List.append_nil _).symm⟩
                · cases hr
                  exact ⟨(0x16 :: a1 :: a2 :: a3 :: a4 :: r4).drop
                      (5 + ((a3 <<< 8) ||| a4)),
                    (List.take_append_drop _ _).symm⟩
      · by_cases h80 : b = 0x80
        · subst h80
          rw [show clientHelloServerName sniOf (0x80 :: rest)
              = some ("", true, (0x80 :: rest).take 1) from rfl] at hr
          cases hr
          exact ⟨rest, rfl⟩
        · have hstep : clientHelloServerName sniOf (b :: rest)
              = some ("", false, (b :: rest).take 1) := by
            simp only [clientHelloServerName]
            rw [if_pos h16, if_neg h80]
          rw [hstep] at hr
          cases hr
          exact ⟨rest, rfl⟩

theorem C8_witness :
    clientHelloServerName (fun _ => "") [0x80, 0xAA]
      = some ("", true, [0x80]) ∧
    clientHelloServerName (fun _ => "") [0x00, 0xAA]
      = some ("", false, [0x00]) :=
  ⟨(C8_byte_classification_preserves_input (fun _ => "") [0x80, 0xAA]
      (by decide)).1 rfl,
   (C8_byte_classification_preserves_input (fun _ => "") [0x00, 0xAA]
      (by decide)).2.1 0 rfl (by decide) (by decide)⟩

/-- C9: for every Read on a wrapped connection: while the Peeked buffer is
non-empty, Read returns bytes only from that buffer (the first
`min plen (len Peeked)` of them) and never touches the underlying
socket; once the buffer is fully drained it is cleared (set to nil); and
when it is nil it stays nil — never speculatively reallocated — and
Reads go to the underlying connection. -/
theorem C9_read_drains_peeked_first (c : Conn) (plen : Nat) :
    (0 < c.peekedLen →
      (c.Read plen).2.conn = c.conn ∧
      (c.Read plen).1 = (c.peeked.getD []).take (min plen c.peekedLen) ∧
      (c.peekedLen ≤ plen → (c.Read plen).2.peeked = none)) ∧
    (c.peeked = none →
      (c.Read plen).2.peeked = none ∧
      (c.Read plen).1 = c.conn.take plen ∧
      (c.Read plen).2.conn = c.conn.drop plen) := by
  constructor
  · intro hp
    unfold Conn.Read
    rw [if_pos hp]
    refine ⟨rfl, rfl, ?_⟩
    intro hle
    have hdrop : (c.peeked.getD []).drop
        (min plen (c.peeked.getD []).length) = [] := by
      have hmin : min plen (c.peeked.getD []).length
          = (c.peeked.getD []).length := by
        unfold Conn.peekedLen at hle
        omega
      rw [hmin, List.drop_length]
    simp [hdrop]
  · intro hn
    have hz : ¬ 0 < c.peekedLen := by
      simp [Conn.peekedLen, hn]
    unfold Conn.Read
    rw [if_neg hz]
    exact ⟨hn, rfl, rfl⟩

theorem C9_witness :
    (Conn.Read ⟨some [1, 2, 3], [9]⟩ 5).2.conn = [9] ∧
    (Conn.Read ⟨some [1, 2, 3], [9]⟩ 5).1 = [1, 2, 3] ∧
    (Conn.Read ⟨some [1, 2, 3], [9]⟩ 5).2.peeked = none :=
  have h := (C9_read_drains_peeked_first ⟨some [1, 2, 3], [9]⟩ 5).1
    (by decide)
  ⟨h.1, h.2.1, h.2.2 (by decide)⟩
